import Mathlib

/-!
Shallow embedding of the Advent-of-Code 2022 repository pieces referenced by
the specification: the shared `aoclib` geometry library (`Point`, `DenseGrid`,
the line-rasterization iterator), and the day-13 and day-19 binaries
(`aoc13.rs`, `aoc19.rs`).

Machine integers are modelled as `Int`/`Nat`; `u16` arithmetic in the day-19
simulator wraps explicitly modulo 2^16 (Rust release-mode semantics).
-/

/-! ## aoclib/point.rs -/

/-- Embeds `Point<i64>` from `src/aoclib/point.rs` (coordinates as `Int`). -/
@[ext]
structure Point where
  x : Int
  y : Int
deriving DecidableEq, Repr

/-- Embeds `Point::new`. -/
def Point.new (x y : Int) : Point := ⟨x, y⟩

/-- Embeds `Point::transpose`. -/
def Point.transpose (p : Point) : Point := Point.new p.y p.x

/-- Embeds `impl Add for Point`: coordinatewise addition. -/
def Point.add (p q : Point) : Point := ⟨p.x + q.x, p.y + q.y⟩

instance : Add Point := ⟨Point.add⟩

/-- Embeds `impl Mul<I> for Point<I>` exactly as written in the source:
`x` is multiplied by the scalar but `y` has the scalar added to it
(`y: self.y + other`). -/
def Point.mul (p : Point) (other : Int) : Point := ⟨p.x * other, p.y + other⟩

/-- Embeds `Point::manhattan_distance_to`:
`((self.x - other.x).abs() + (self.y - other.y).abs()).to_u64().unwrap() as usize`. -/
def Point.manhattan_distance_to (p other : Point) : Nat :=
  (|p.x - other.x| + |p.y - other.y|).toNat

/-- Embeds the `LineToIter` iterator state from `src/aoclib/point.rs`.
The `end` field of the Rust struct is spelled `endp` (`end` is a Lean keyword). -/
structure LineToIter where
  start : Point
  endp : Point
  direction : Point
  done : Bool
deriving DecidableEq, Repr

/-- Embeds `LineToIter::new`. The `(Equal, Equal)` arm is `unreachable!()` in
the source (a panic), modelled as `none`. -/
def LineToIter.new (start endp : Point) : Option LineToIter :=
  match compare start.x endp.x, compare start.y endp.y with
  | .lt, _ => some ⟨start, endp, ⟨1, 0⟩, false⟩
  | .gt, _ => some ⟨start, endp, ⟨-1, 0⟩, false⟩
  | .eq, .lt => some ⟨start, endp, ⟨0, 1⟩, false⟩
  | .eq, .gt => some ⟨start, endp, ⟨0, -1⟩, false⟩
  | .eq, .eq => none

/-- Embeds `Iterator::next` for `LineToIter`: yields the current `start`,
marks the iterator done when `start == end`, and advances by `direction`. -/
def LineToIter.next (it : LineToIter) : Option (Point × LineToIter) :=
  if it.done then none
  else
    let current := it.start
    let done := it.start = it.endp
    some (current, { it with start := it.start + it.direction, done := done })

/-- Collects at most `fuel` elements from the iterator, in order.
A terminating Rust iterator yields the same list for every large enough fuel. -/
def LineToIter.taken (fuel : Nat) (it : LineToIter) : List Point :=
  match fuel with
  | 0 => []
  | f + 1 =>
    match it.next with
    | none => []
    | some (p, it') => p :: LineToIter.taken f it'

/-- Embeds `Point::line_to(self, other)`: the iterator over the segment
(as an optional iterator state, `none` on the unreachable equal-points panic). -/
def Point.line_to (p other : Point) : Option LineToIter :=
  LineToIter.new p other

/-! ## aoclib/grid.rs -/

/-- Embeds `DenseGrid<V>` from `src/aoclib/grid.rs`.
The cell vector is modelled as a `List V`. -/
structure DenseGrid (V : Type) where
  min_x : Int
  min_y : Int
  max_x : Int
  max_y : Int
  width : Nat
  height : Nat
  cells : List V
deriving DecidableEq, Repr

/-- Embeds `DenseGrid::new_with` (`u64::abs_diff` is `Int.natAbs` of the
difference; the grid starts filled with `empty_value`). -/
def DenseGrid.new_with (upper_left lower_right : Point) (empty_value : V) :
    DenseGrid V :=
  let min_x := min upper_left.x lower_right.x
  let max_x := max upper_left.x lower_right.x
  let min_y := min upper_left.y lower_right.y
  let max_y := max upper_left.y lower_right.y
  let width := 1 + (max_x - min_x).natAbs
  let height := 1 + (max_y - min_y).natAbs
  { min_x := min_x, min_y := min_y, max_x := max_x, max_y := max_y,
    width := width, height := height,
    cells := List.replicate (width * height) empty_value }

/-- Embeds `DenseGrid::size`. -/
def DenseGrid.size (g : DenseGrid V) : Nat := g.width * g.height

/-- Embeds `DenseGrid::index_for`: row-major index inside the bounding box,
`none` outside it. -/
def DenseGrid.index_for (g : DenseGrid V) (coordinate : Point) : Option Nat :=
  if coordinate.x < g.min_x || coordinate.x > g.max_x
      || coordinate.y < g.min_y || coordinate.y > g.max_y then
    none
  else
    let row := (coordinate.y - g.min_y).natAbs * g.width
    let col := (coordinate.x - g.min_x).natAbs
    some (row + col)

/-- Embeds `DenseGrid::get`: `self.cells.get(index).cloned()` after
`index_for`. -/
def DenseGrid.get (g : DenseGrid V) (coordinate : Point) : Option V :=
  (g.index_for coordinate).bind fun index => g.cells[index]?

/-- Embeds `DenseGrid::set` as state passing: the first component is the grid
after the call (unchanged when the coordinate is rejected), the second is the
Rust return value `Option<()>`. -/
def DenseGrid.set (g : DenseGrid V) (coordinate : Point) (value : V) :
    DenseGrid V × Option Unit :=
  match g.index_for coordinate with
  | none => (g, none)
  | some index => ({ g with cells := g.cells.set index value }, some ())

/-- Embeds `DenseGrid::contains`. -/
def DenseGrid.contains (g : DenseGrid V) (coordinate : Point) : Bool :=
  coordinate.x ≥ g.min_x && coordinate.x ≤ g.max_x
    && coordinate.y ≥ g.min_y && coordinate.y ≤ g.max_y

/-- Well-formedness of a `DenseGrid`: the invariant that every grid built by
`new_with` (the only constructor; the Rust fields are private) satisfies. -/
def DenseGrid.WF (g : DenseGrid V) : Prop :=
  g.min_x ≤ g.max_x ∧ g.min_y ≤ g.max_y ∧
    g.width = 1 + (g.max_x - g.min_x).natAbs ∧
    g.height = 1 + (g.max_y - g.min_y).natAbs ∧
    g.cells.length = g.width * g.height

instance (g : DenseGrid V) : Decidable g.WF := by
  unfold DenseGrid.WF; infer_instance

/-! ## bin/aoc13.rs -/

/-- Embeds the shared Part1/Part2 mode flag (`enum Mode`) of the binaries. -/
inductive Mode where
  | part1
  | part2
deriving DecidableEq, Repr

/-- Embeds `enum Packet` from `src/bin/aoc13.rs` (`i32` payload as `Int`;
constructor names are lowercased to avoid clashing with `List`). -/
inductive Packet where
  | number (n : Int)
  | list (l : List Packet)

mutual

/-- Embeds the derived `PartialEq` on `Packet` (structural equality). -/
def packetBEq : Packet → Packet → Bool
  | .number a, .number b => a == b
  | .list a, .list b => packetListBEq a b
  | _, _ => false

/-- Structural equality on `Vec<Packet>` (derived `PartialEq` on `Vec`). -/
def packetListBEq : List Packet → List Packet → Bool
  | [], [] => true
  | x :: xs, y :: ys => packetBEq x y && packetListBEq xs ys
  | _, _ => false

end

mutual

/-- Embeds the derived `Ord::cmp` on `Packet` (from `#[derive(..., Ord)]`):
variants compare by declaration order (`Number` before `List`), payloads
compare by `i32` order and lexicographic `Vec` order respectively. -/
def cmpD : Packet → Packet → Ordering
  | .number a, .number b => compare a b
  | .number _, .list _ => .lt
  | .list _, .number _ => .gt
  | .list a, .list b => cmpListD a b

/-- Derived lexicographic `Ord` on `Vec<Packet>`. -/
def cmpListD : List Packet → List Packet → Ordering
  | [], [] => .eq
  | [], _ :: _ => .lt
  | _ :: _, [] => .gt
  | a :: as, b :: bs =>
    match cmpD a b with
    | .eq => cmpListD as bs
    | o => o

end

mutual

/-- Embeds the hand-written `PartialOrd::partial_cmp` on `Packet`, with fuel
(the Rust recursion has no fuel; the wrapper `pcmp` supplies enough). -/
def pcmpF : Nat → Packet → Packet → Option Ordering
  | 0, _, _ => none
  | f + 1, a, b =>
    match a, b with
    | .number l, .number r => some (compare l r)
    | .list l, .list r => pcmpZipF f l r
    | .number n, .list _ => pcmpF f (.list [.number n]) b
    | .list _, .number n => pcmpF f a (.list [.number n])

/-- The `zip_longest` loop of `partial_cmp` on two lists: a leftover left
element means `Greater`, a leftover right element means `Less`, and per-pair
results other than `Less`/`Greater` fall through to the next pair. -/
def pcmpZipF : Nat → List Packet → List Packet → Option Ordering
  | 0, _, _ => none
  | f + 1, xs, ys =>
    match xs, ys with
    | [], [] => some .eq
    | _ :: _, [] => some .gt
    | [], _ :: _ => some .lt
    | x :: xs', y :: ys' =>
      match pcmpF f x y with
      | some .lt => some .lt
      | some .gt => some .gt
      | _ => pcmpZipF f xs' ys'

end

mutual

/-- Structural size of a packet, used only to bound the `pcmp` fuel. -/
def packetSize : Packet → Nat
  | .number _ => 1
  | .list l => 1 + packetListSize l

/-- Structural size of a packet list. -/
def packetListSize : List Packet → Nat
  | [] => 0
  | x :: xs => 1 + packetSize x + packetListSize xs

end

/-- Embeds `Packet::partial_cmp` (the fuel bound is generous: the Rust
recursion descends the packet structure, so it is total). -/
def pcmp (a b : Packet) : Option Ordering :=
  pcmpF (2 * (packetSize a + packetSize b) + 2) a b

/-- Embeds `lhs <= rhs` on packets: `PartialOrd::le`, i.e.
`matches!(partial_cmp, Some(Less | Equal))`. -/
def packetLe (a b : Packet) : Bool :=
  match pcmp a b with
  | some .lt => true
  | some .eq => true
  | _ => false

/-- Sorting predicate of `all_packets.sort()`: the slice sort is stable and
ordered by the derived `Ord::cmp`, so `a` may precede `b` iff
`cmp(a, b) != Greater`. -/
def packetLeD (a b : Packet) : Bool := cmpD a b ≠ .gt

/-- Rust `char::is_whitespace`: the Unicode White_Space property. -/
def rustIsWhitespace (c : Char) : Bool :=
  (0x9 ≤ c.toNat && c.toNat ≤ 0xD) || c.toNat = 0x20 || c.toNat = 0x85
    || c.toNat = 0xA0 || c.toNat = 0x1680
    || (0x2000 ≤ c.toNat && c.toNat ≤ 0x200A)
    || c.toNat = 0x2028 || c.toNat = 0x2029 || c.toNat = 0x202F
    || c.toNat = 0x205F || c.toNat = 0x3000

/-- Rust `str::trim`: strip leading and trailing whitespace. -/
def rustTrim (s : List Char) : List Char :=
  ((s.dropWhile rustIsWhitespace).reverse.dropWhile rustIsWhitespace).reverse

/-- Numeric value of a digit string (most significant first). -/
def digitsVal (ds : List Char) : Nat :=
  ds.foldl (fun acc c => acc * 10 + (c.toNat - '0'.toNat)) 0

/-- Embeds `nom::character::complete::i32`: an optional sign, one or more
digits, failing (like nom's checked fold) when the value overflows `i32`.
Parsers return `some (value, rest)` on success; nom's recoverable `Err`
is `none` (this grammar never raises `Failure`). -/
def parseI32 (cs : List Char) : Option (Int × List Char) :=
  let (sign, rest) :=
    match cs with
    | '+' :: r => ((1 : Int), r)
    | '-' :: r => ((-1 : Int), r)
    | r => ((1 : Int), r)
  let ds := rest.takeWhile Char.isDigit
  let rest2 := rest.dropWhile Char.isDigit
  if ds.isEmpty then none
  else
    let v : Int := sign * (digitsVal ds : Nat)
    if v < -2147483648 ∨ 2147483647 < v then none else some (v, rest2)

mutual

/-- Embeds `parse_packet` from `src/bin/aoc13.rs`, with fuel:
`alt((map(i32, Number), map(delimited("[", separated_list0(",", parse_packet), "]"), List)))`. -/
def parsePacketF : Nat → List Char → Option (Packet × List Char)
  | 0, _ => none
  | f + 1, cs =>
    match parseI32 cs with
    | some (n, rest) => some (.number n, rest)
    | none =>
      match cs with
      | '[' :: rest =>
        match sepPacketsF f rest with
        | some (ps, rest2) =>
          match rest2 with
          | ']' :: rest3 => some (.list ps, rest3)
          | _ => none
        | none => none
      | _ => none

/-- Embeds `separated_list0(tag(","), parse_packet)`: an empty list when the
first element fails, otherwise the comma-separated loop. -/
def sepPacketsF : Nat → List Char → Option (List Packet × List Char)
  | 0, _ => none
  | f + 1, cs =>
    match parsePacketF f cs with
    | none => some ([], cs)
    | some (p, rest) => sepLoopF f [p] rest

/-- The loop of `separated_list0`: stop (without consuming the separator)
when the separator or the following element fails. -/
def sepLoopF : Nat → List Packet → List Char → Option (List Packet × List Char)
  | 0, _, _ => none
  | f + 1, acc, cs =>
    match cs with
    | ',' :: rest =>
      match parsePacketF f rest with
      | none => some (acc, cs)
      | some (p, rest2) => sepLoopF f (acc ++ [p]) rest2
    | _ => some (acc, cs)

end

/-- Embeds `parse_packet` (fuel instantiated: each two fuel units consume at
least one input character, so `2 * length + 2` always suffices). -/
def parse_packet (cs : List Char) : Option (Packet × List Char) :=
  parsePacketF (2 * cs.length + 2) cs

/-- Embeds `pair(terminated(parse_packet, tag("\n")), parse_packet)`:
one blank-line-free packet pair. -/
def parsePairElem (cs : List Char) : Option ((Packet × Packet) × List Char) :=
  match parse_packet cs with
  | none => none
  | some (p1, r1) =>
    match r1 with
    | '\n' :: r2 =>
      match parse_packet r2 with
      | none => none
      | some (p2, r3) => some ((p1, p2), r3)
    | _ => none

/-- The loop of `separated_list1(tag("\n\n"), pair(...))`: stop before the
separator when the separator or the next pair fails. -/
def parsePairsLoop : Nat → List (Packet × Packet) → List Char →
    List (Packet × Packet) × List Char
  | 0, acc, cs => (acc, cs)
  | f + 1, acc, cs =>
    match cs with
    | '\n' :: '\n' :: r2 =>
      match parsePairElem r2 with
      | none => (acc, cs)
      | some (pq, r3) => parsePairsLoop f (acc ++ [pq]) r3
    | _ => (acc, cs)

/-- Embeds `parse_packets`: `separated_list1(tag("\n\n"), pair(terminated(parse_packet, tag("\n")), parse_packet))`.
Returns the parsed pairs and the unconsumed remainder. -/
def parse_packets (cs : List Char) :
    Option (List (Packet × Packet) × List Char) :=
  match parsePairElem cs with
  | none => none
  | some (pq, rest) => some (parsePairsLoop (rest.length + 1) [pq] rest)

/-- Embeds `parse_packet_pairs`: fail on a parse error, fail on a remainder
that is not all whitespace, otherwise return every parsed pair. The nom error
rendered by `anyhow!("error parsing: {:?}", e)` is abstracted to a fixed
descriptive message. -/
def parse_packet_pairs (cs : List Char) :
    Except String (List (Packet × Packet)) :=
  match parse_packets cs with
  | none => .error "error parsing: Error"
  | some (packets, remainder) =>
    if (rustTrim remainder).isEmpty then .ok packets
    else .error ("unconsumed input " ++ String.mk remainder)

/-- The loop of `separated_list1(many1(tag("\n")), parse_packet)` used by
`parse_all_packets`. -/
def parseAllLoop : Nat → List Packet → List Char → List Packet × List Char
  | 0, acc, cs => (acc, cs)
  | f + 1, acc, cs =>
    match cs with
    | '\n' :: _ =>
      match parse_packet (cs.dropWhile (· == '\n')) with
      | none => (acc, cs)
      | some (p, r3) => parseAllLoop f (acc ++ [p]) r3
    | _ => (acc, cs)

/-- Embeds `parse_all_packets`: newline-separated packets, all-or-nothing
modulo trailing whitespace. -/
def parse_all_packets (cs : List Char) : Except String (List Packet) :=
  match parse_packet cs with
  | none => .error "error parsing Error"
  | some (p, rest) =>
    let (ps, remainder) := parseAllLoop (rest.length + 1) [p] rest
    if (rustTrim remainder).isEmpty then .ok ps
    else .error ("unconsumed input " ++ String.mk remainder)

/-- Part 1 of `aoc13::main`: 1-based indices of the pairs with `lhs <= rhs`,
summed. -/
def okIndicesSum (pairs : List (Packet × Packet)) : Nat :=
  (pairs.enum.filterMap fun ie =>
    if packetLe ie.2.1 ie.2.2 then some (ie.1 + 1) else none).sum

/-- The two part-2 divider packets `[[2]]` and `[[6]]`. -/
def delimiters : List Packet :=
  [.list [.list [.number 2]], .list [.list [.number 6]]]

/-- Part 2 of `aoc13::main`: append the dividers, stable-sort by the derived
`Ord`, and multiply the 1-based positions of the dividers (`position` is
total here because both dividers are in the list). -/
def decoderKey (ps : List Packet) : Nat :=
  let all_packets := ps ++ delimiters
  let sorted := all_packets.mergeSort packetLeD
  (delimiters.map fun d => sorted.findIdx (fun i => packetBEq i d) + 1).prod

/-- Embeds `aoc13::main` (non-verbose): the input is the full stdin text, the
result is the printed answer line or the propagated parse error. -/
def main13 (mode : Mode) (input : List Char) : Except String String :=
  match mode with
  | .part1 => (parse_packet_pairs input).map fun pairs =>
      toString (okIndicesSum pairs)
  | .part2 => (parse_all_packets input).map fun ps =>
      toString (decoderKey ps)

/-! ## bin/aoc19.rs -/

/-- Embeds `struct Blueprint` from `src/bin/aoc19.rs` (`u16` fields as `Nat`).
Cost pairs keep the Rust order: `(ore, clay)` and `(ore, obsidian)`. -/
structure Blueprint where
  id : Nat
  ore_cost : Nat
  clay_cost : Nat
  obsidian_cost : Nat × Nat
  geode_cost : Nat × Nat
deriving DecidableEq, Repr

/-- Embeds `Blueprint::max_ore_use`. -/
def Blueprint.max_ore_use (bp : Blueprint) : Nat :=
  max bp.ore_cost (max bp.clay_cost (max bp.obsidian_cost.1 bp.geode_cost.1))

/-- Embeds `Blueprint::max_clay_use`. -/
def Blueprint.max_clay_use (bp : Blueprint) : Nat := bp.obsidian_cost.2

/-- Embeds `Blueprint::max_obsidian_use`. -/
def Blueprint.max_obsidian_use (bp : Blueprint) : Nat := bp.geode_cost.2

/-- Embeds `struct Inventory`, in the Rust field declaration order (the order
matters for the derived `Ord` used when sorting the work queue). -/
structure Inventory where
  obsidian : Nat
  clay : Nat
  obsidian_robots : Nat
  clay_robots : Nat
  ore : Nat
  ore_robots : Nat
deriving DecidableEq, Repr

/-- Wrap to `u16` (Rust release-mode wrapping arithmetic). -/
def w16 (n : Nat) : Nat := n % 65536

/-- Wrapping `u16` subtraction, for arguments below 2^16. -/
def wsub16 (a b : Nat) : Nat := (a + 65536 - b) % 65536

/-- Wrapping `u16` addition. -/
def wadd16 (a b : Nat) : Nat := w16 (a + b)

/-- Wrapping `u16` multiplication. -/
def wmul16 (a b : Nat) : Nat := w16 (a * b)

/-- Embeds `Inventory::new`: one ore robot, everything else zero. -/
def Inventory.new : Inventory :=
  { ore := 0, clay := 0, obsidian := 0,
    ore_robots := 1, clay_robots := 0, obsidian_robots := 0 }

/-- Embeds `Inventory::next`: each robot adds one unit of its resource. -/
def Inventory.next (i : Inventory) : Inventory :=
  { i with ore := wadd16 i.ore i.ore_robots,
           clay := wadd16 i.clay i.clay_robots,
           obsidian := wadd16 i.obsidian i.obsidian_robots }

/-- The derived `Ord::cmp` on `Inventory`: lexicographic in field order. -/
def Inventory.cmp (a b : Inventory) : Ordering :=
  (compare a.obsidian b.obsidian).then
    ((compare a.clay b.clay).then
      ((compare a.obsidian_robots b.obsidian_robots).then
        ((compare a.clay_robots b.clay_robots).then
          ((compare a.ore b.ore).then
            (compare a.ore_robots b.ore_robots)))))

/-- A work item of the day-19 search: `(geodes, inventory, remaining_ticks)`. -/
abbrev WorkItem := Nat × Inventory × Nat

/-- The derived `Ord::cmp` on work-item tuples: lexicographic. -/
def itemCmp (a b : WorkItem) : Ordering :=
  (compare a.1 b.1).then
    ((Inventory.cmp a.2.1 b.2.1).then (compare a.2.2 b.2.2))

/-- Models `lru_cache::LruCache<(u16, Inventory, u16), ()>`: a bounded seen-set
with most-recently-used entries first; inserting an existing key reports it and
refreshes its recency, inserting a new key evicts the least recently used
entry beyond the capacity. -/
structure LruCache where
  capacity : Nat
  entries : List WorkItem
deriving DecidableEq, Repr

/-- Models `LruCache::insert` (the value type is `()`): the `Bool` result is
`insert(..).is_some()`, i.e. whether the key was already present. -/
def LruCache.insert (c : LruCache) (k : WorkItem) : Bool × LruCache :=
  if k ∈ c.entries then
    (true, { c with entries := k :: c.entries.erase k })
  else
    (false, { c with entries := (k :: c.entries).take c.capacity })

/-- The inner `while let Some(..) = work.pop()` loop of `simulate_with`,
processing items in pop order (callers pass the work vector reversed).
Returns the accumulated `next_work` (pushes append on the right), the seen
cache, the best geode count, and the `done` flag. -/
def runItems (bp : Blueprint) :
    List WorkItem → List WorkItem → LruCache → Nat → Bool →
      List WorkItem × LruCache × Nat × Bool
  | [], next_work, seen, best, done => (next_work, seen, best, done)
  | (geodes, inv, rt) :: rest, next_work, seen, best, done =>
    let best := max best geodes
    let done := done || decide (rt ≤ 1)
    let (present, seen) := seen.insert (geodes, inv, rt)
    if present then
      runItems bp rest next_work seen best done
    else if bp.geode_cost.1 ≤ inv.ore ∧ bp.geode_cost.2 ≤ inv.obsidian then
      let next := inv.next
      let next := { next with ore := wsub16 next.ore bp.geode_cost.1,
                              obsidian := wsub16 next.obsidian bp.geode_cost.2 }
      let these_geodes := wsub16 rt 1
      runItems bp rest
        (next_work ++ [(wadd16 geodes these_geodes, next, wsub16 rt 1)])
        seen best done
    else
      let nw := next_work
      let nw :=
        if bp.obsidian_cost.1 ≤ inv.ore ∧ bp.obsidian_cost.2 ≤ inv.clay
            ∧ inv.obsidian_robots < bp.max_obsidian_use then
          let next := inv.next
          nw ++ [(geodes,
            { next with ore := wsub16 next.ore bp.obsidian_cost.1,
                        clay := wsub16 next.clay bp.obsidian_cost.2,
                        obsidian_robots := wadd16 next.obsidian_robots 1 },
            wsub16 rt 1)]
        else nw
      let nw :=
        if bp.ore_cost ≤ inv.ore ∧ inv.ore_robots < bp.max_ore_use then
          let next := inv.next
          nw ++ [(geodes,
            { next with ore := wsub16 next.ore bp.ore_cost,
                        ore_robots := wadd16 next.ore_robots 1 },
            wsub16 rt 1)]
        else nw
      let nw :=
        if bp.clay_cost ≤ inv.ore ∧ inv.clay_robots < bp.max_clay_use then
          let next := inv.next
          nw ++ [(geodes,
            { next with ore := wsub16 next.ore bp.clay_cost,
                        clay_robots := wadd16 next.clay_robots 1 },
            wsub16 rt 1)]
        else nw
      let nw := nw ++ [(geodes, inv.next, wsub16 rt 1)]
      runItems bp rest nw seen best done

/-- The outer generation loop of `simulate_with`, with fuel: each iteration
drains `work`, then stable-sorts `next_work` descending by the derived tuple
`Ord` (`sort_by(|a, b| b.cmp(a))` — a stable sort with a total comparator is
unique, so `mergeSort` yields the Rust result), truncates to the best 10000
fronts, and swaps. The remaining tick count drops by one per generation and
the loop exits once a generation with at most one tick left was processed, so
`ticks` generations always suffice. -/
def simLoop (bp : Blueprint) : Nat → List WorkItem → LruCache → Nat → Nat
  | 0, _, _, best => best
  | fuel + 1, work, seen, best =>
    let (next_work, seen, best, done) := runItems bp work.reverse [] seen best false
    if done then best
    else
      let sorted := next_work.mergeSort fun a b => itemCmp b a ≠ .gt
      let truncated := sorted.take (min sorted.length 10000)
      simLoop bp fuel truncated seen best

/-- Embeds `simulate_with`: the best geode count reachable from `inventory`
in `ticks` ticks under `blueprint`, per the pruned beam search of the source. -/
def simulate_with (blueprint : Blueprint) (inventory : Inventory)
    (ticks : Nat) : Nat :=
  simLoop blueprint ticks [(0, inventory, ticks)] ⟨1000000, []⟩ 0

/-- Embeds the `tag` combinator: expect a literal, return the rest. -/
def expectTag : List Char → List Char → Option (List Char)
  | [], cs => some cs
  | t :: ts, c :: cs => if c == t then expectTag ts cs else none
  | _ :: _, [] => none

/-- Embeds `nom::character::complete::u16`: one or more digits, failing when
the value overflows `u16`. -/
def parseU16 (cs : List Char) : Option (Nat × List Char) :=
  let ds := cs.takeWhile Char.isDigit
  let rest := cs.dropWhile Char.isDigit
  if ds.isEmpty then none
  else if 65535 < digitsVal ds then none
  else some (digitsVal ds, rest)

/-- Embeds `delimited(tag(pre), u16, tag(post))`: a number between two
literals. -/
def delimNum (pre post : List Char) (cs : List Char) : Option (Nat × List Char) :=
  match expectTag pre cs with
  | none => none
  | some r =>
    match parseU16 r with
    | none => none
    | some (n, r2) =>
      match expectTag post r2 with
      | none => none
      | some r3 => some (n, r3)

/-- Embeds `preceded(tag(pre), tuple((terminated(u16, tag(mid)), terminated(u16, tag(post)))))`:
the two-resource cost clauses of the blueprint grammar. -/
def costPair (pre mid post : List Char) (cs : List Char) :
    Option ((Nat × Nat) × List Char) :=
  match expectTag pre cs with
  | none => none
  | some r =>
    match parseU16 r with
    | none => none
    | some (a, r2) =>
      match expectTag mid r2 with
      | none => none
      | some r3 =>
        match parseU16 r3 with
        | none => none
        | some (b, r4) =>
          match expectTag post r4 with
          | none => none
          | some r5 => some ((a, b), r5)

/-- Embeds `parse_blueprint`: the five-part tuple of the blueprint line
grammar, mapped onto the `Blueprint` struct. -/
def parse_blueprint (cs : List Char) : Option (Blueprint × List Char) :=
  match delimNum "Blueprint ".data ": ".data cs with
  | none => none
  | some (id, r) =>
    match delimNum "Each ore robot costs ".data " ore. ".data r with
    | none => none
    | some (ore_cost, r2) =>
      match delimNum "Each clay robot costs ".data " ore. ".data r2 with
      | none => none
      | some (clay_cost, r3) =>
        match costPair "Each obsidian robot costs ".data " ore and ".data
            " clay. ".data r3 with
        | none => none
        | some (obsidian_cost, r4) =>
          match costPair "Each geode robot costs ".data " ore and ".data
              " obsidian.".data r4 with
          | none => none
          | some (geode_cost, r5) =>
            some (⟨id, ore_cost, clay_cost, obsidian_cost, geode_cost⟩, r5)

/-- The loop of `separated_list1(tag("\n"), parse_blueprint)`. -/
def parseBlueprintsLoop : Nat → List Blueprint → List Char →
    List Blueprint × List Char
  | 0, acc, cs => (acc, cs)
  | f + 1, acc, cs =>
    match cs with
    | '\n' :: r2 =>
      match parse_blueprint r2 with
      | none => (acc, cs)
      | some (bp, r3) => parseBlueprintsLoop f (acc ++ [bp]) r3
    | _ => (acc, cs)

/-- Embeds `parse_blueprints`: newline-separated blueprint lines,
all-or-nothing modulo trailing whitespace. -/
def parse_blueprints (cs : List Char) : Except String (List Blueprint) :=
  match parse_blueprint cs with
  | none => .error "unable to parse input: Error"
  | some (bp, rest) =>
    let (bps, remainder) := parseBlueprintsLoop (rest.length + 1) [bp] rest
    if (rustTrim remainder).isEmpty then .ok bps
    else .error ("unparsed input: " ++ String.mk remainder)

/-- Embeds `aoc19::main` (non-verbose): parse the blueprints, simulate each
blueprint independently (24 ticks for Part 1, 32 for Part 2), then reduce:
Part 1 sums `blueprint.id * geodes` over all blueprints, Part 2 multiplies
the results of the first three blueprints (`take(3)` on an indexed parallel
iterator takes the first three by input position). `u16` reductions wrap. -/
def main19 (mode : Mode) (input : List Char) : Except String String :=
  match parse_blueprints input with
  | .error e => .error e
  | .ok blueprints =>
    let minutes : Nat := match mode with | .part1 => 24 | .part2 => 32
    let geodes := blueprints.map fun bp =>
      (bp, simulate_with bp Inventory.new minutes)
    match mode with
    | .part1 =>
      .ok (toString ((geodes.map fun bg => wmul16 bg.1.id bg.2).foldl wadd16 0))
    | .part2 =>
      .ok (toString (((geodes.map fun bg => bg.2).take 3).foldl wmul16 1))

/-! ## Theorems -/

theorem Point.add_def (p q : Point) : p + q = ⟨p.x + q.x, p.y + q.y⟩ := rfl

/-- C3: `manhattan_distance_to` computes |Δx| + |Δy|, is symmetric, and
vanishes exactly on equal points (i64 is modelled as unbounded `Int`; the
claim assumes the sum does not overflow). -/
theorem manhattan_distance_spec (a b : Point) :
    a.manhattan_distance_to b = (a.x - b.x).natAbs + (a.y - b.y).natAbs ∧
    a.manhattan_distance_to b = b.manhattan_distance_to a ∧
    (a.manhattan_distance_to b = 0 ↔ a = b) := by
  simp only [Point.manhattan_distance_to, Int.abs_eq_natAbs, Point.ext_iff]
  omega

/-- C9: the `Mul` impl on `Point` does not scale both coordinates: at
`p = (2, 3)` and `k = 5` it returns `(10, 8)` (the y coordinate has the
scalar added), not `Point::new(2 * 5, 3 * 5) = (10, 15)` as the claim
states. -/
theorem point_mul_not_scaling :
    Point.mul ⟨2, 3⟩ 5 = ⟨10, 8⟩ ∧
    Point.mul ⟨2, 3⟩ 5 ≠ Point.new (2 * 5) (3 * 5) := by decide

/-- C1: an access outside the bounding box (where `contains` is false) is
rejected: `get` returns `none`, and `set` returns `none` while leaving the
grid (every cell, and all bounds) unchanged — it never resolves to an
in-bounds cell. -/
theorem grid_oob_rejected {V : Type} (g : DenseGrid V) (p : Point) (v : V)
    (h : g.contains p = false) :
    g.get p = none ∧ g.set p v = (g, none) := by
  have hc : ¬(g.min_x ≤ p.x ∧ p.x ≤ g.max_x ∧ g.min_y ≤ p.y ∧ p.y ≤ g.max_y) := by
    intro hcon
    have htrue : g.contains p = true := by
      simp only [DenseGrid.contains, Bool.and_eq_true, decide_eq_true_eq]
      exact ⟨⟨⟨hcon.1, hcon.2.1⟩, hcon.2.2.1⟩, hcon.2.2.2⟩
    rw [h] at htrue
    exact Bool.false_ne_true htrue
  have hidx : g.index_for p = none := by
    simp only [DenseGrid.index_for]
    rw [if_pos]
    simp only [Bool.or_eq_true, decide_eq_true_eq]
    omega
  constructor
  · simp [DenseGrid.get, hidx]
  · simp [DenseGrid.set, hidx]

/-- Witness for C1 at a concrete grid and point. -/
theorem grid_oob_rejected_witness :
    (DenseGrid.new_with ⟨0, 0⟩ ⟨1, 1⟩ (0 : Nat)).contains ⟨5, 5⟩ = false ∧
    ((DenseGrid.new_with ⟨0, 0⟩ ⟨1, 1⟩ (0 : Nat)).get ⟨5, 5⟩ = none ∧
      (DenseGrid.new_with ⟨0, 0⟩ ⟨1, 1⟩ (0 : Nat)).set ⟨5, 5⟩ 7 =
        (DenseGrid.new_with ⟨0, 0⟩ ⟨1, 1⟩ (0 : Nat), none)) :=
  ⟨by decide, grid_oob_rejected _ _ _ (by decide)⟩

theorem rowcol_lt {r c W H : Nat} (hr : r < H) (hc : c < W) :
    r * W + c < W * H :=
  calc r * W + c < r * W + W := by omega
    _ = (r + 1) * W := by ring
    _ ≤ H * W := Nat.mul_le_mul_right W hr
    _ = W * H := Nat.mul_comm H W

/-- C7: `new_with` accepts the corners in either order, the bounds are the
coordinatewise min/max, width and height are the inclusive extents, `size`
is their product, and every in-box cell starts as the empty value. -/
theorem new_with_spec {V : Type} (ul lr : Point) (e : V) :
    DenseGrid.new_with lr ul e = DenseGrid.new_with ul lr e ∧
    (DenseGrid.new_with ul lr e).min_x = min ul.x lr.x ∧
    (DenseGrid.new_with ul lr e).max_x = max ul.x lr.x ∧
    (DenseGrid.new_with ul lr e).min_y = min ul.y lr.y ∧
    (DenseGrid.new_with ul lr e).max_y = max ul.y lr.y ∧
    (DenseGrid.new_with ul lr e).width = (ul.x - lr.x).natAbs + 1 ∧
    (DenseGrid.new_with ul lr e).height = (ul.y - lr.y).natAbs + 1 ∧
    (DenseGrid.new_with ul lr e).size =
      (DenseGrid.new_with ul lr e).width * (DenseGrid.new_with ul lr e).height ∧
    ∀ p : Point, (DenseGrid.new_with ul lr e).contains p = true →
      (DenseGrid.new_with ul lr e).get p = some e := by
  refine ⟨?_, rfl, rfl, rfl, rfl, by simp [DenseGrid.new_with]; omega,
    by simp [DenseGrid.new_with]; omega, rfl, ?_⟩
  · simp [DenseGrid.new_with, min_comm, max_comm]
  · intro p hp
    simp only [DenseGrid.contains, DenseGrid.new_with, Bool.and_eq_true,
      decide_eq_true_eq] at hp
    obtain ⟨⟨⟨h1, h2⟩, h3⟩, h4⟩ := hp
    have hr : (p.y - min ul.y lr.y).natAbs < 1 + (max ul.y lr.y - min ul.y lr.y).natAbs := by
      omega
    have hc : (p.x - min ul.x lr.x).natAbs < 1 + (max ul.x lr.x - min ul.x lr.x).natAbs := by
      omega
    simp only [DenseGrid.get, DenseGrid.new_with, DenseGrid.index_for]
    rw [if_neg]
    · simp only [Option.bind_eq_bind, Option.some_bind, List.getElem?_replicate]
      rw [if_pos (rowcol_lt hr hc)]
    · simp only [Bool.or_eq_true, decide_eq_true_eq]
      omega

theorem rowcol_inj {W r1 c1 r2 c2 : Nat} (h1 : c1 < W) (h2 : c2 < W)
    (he : r1 * W + c1 = r2 * W + c2) : r1 = r2 ∧ c1 = c2 := by
  have hrr : r1 = r2 := by
    rcases Nat.lt_trichotomy r1 r2 with h | h | h
    · exact absurd he (Nat.ne_of_lt (calc
        r1 * W + c1 < r1 * W + W := by omega
        _ = (r1 + 1) * W := (Nat.succ_mul r1 W).symm
        _ ≤ r2 * W := Nat.mul_le_mul_right W h
        _ ≤ r2 * W + c2 := Nat.le_add_right _ _))
    · exact h
    · exact absurd he.symm (Nat.ne_of_lt (calc
        r2 * W + c2 < r2 * W + W := by omega
        _ = (r2 + 1) * W := (Nat.succ_mul r2 W).symm
        _ ≤ r1 * W := Nat.mul_le_mul_right W h
        _ ≤ r1 * W + c1 := Nat.le_add_right _ _))
  subst hrr
  exact ⟨rfl, Nat.add_left_cancel he⟩

theorem index_for_some {V : Type} (g : DenseGrid V) (p : Point)
    (hc : g.contains p = true) :
    g.index_for p =
      some ((p.y - g.min_y).natAbs * g.width + (p.x - g.min_x).natAbs) := by
  simp only [DenseGrid.contains, Bool.and_eq_true, decide_eq_true_eq] at hc
  obtain ⟨⟨⟨h1, h2⟩, h3⟩, h4⟩ := hc
  simp only [DenseGrid.index_for]
  rw [if_neg]
  simp only [Bool.or_eq_true, decide_eq_true_eq]
  omega

/-- C8: a successful in-bounds `set` writes exactly one cell: the written
point reads back the new value, every other point reads as before, and the
bounds, width, height and size are unchanged. `WF` is the invariant
guaranteed by `new_with`, the only constructor of the private Rust struct. -/
theorem set_frame {V : Type} (g : DenseGrid V) (p : Point) (v : V)
    (hwf : g.WF) (hc : g.contains p = true) :
    (g.set p v).2 = some () ∧
    (g.set p v).1.get p = some v ∧
    (∀ q : Point, q ≠ p → (g.set p v).1.get q = g.get q) ∧
    (g.set p v).1.min_x = g.min_x ∧ (g.set p v).1.max_x = g.max_x ∧
    (g.set p v).1.min_y = g.min_y ∧ (g.set p v).1.max_y = g.max_y ∧
    (g.set p v).1.width = g.width ∧ (g.set p v).1.height = g.height ∧
    (g.set p v).1.size = g.size := by
  obtain ⟨hbx, hby, hW, hH, hlen⟩ := hwf
  have hcb : g.min_x ≤ p.x ∧ p.x ≤ g.max_x ∧ g.min_y ≤ p.y ∧ p.y ≤ g.max_y := by
    simp only [DenseGrid.contains, Bool.and_eq_true, decide_eq_true_eq] at hc
    exact ⟨hc.1.1.1, hc.1.1.2, hc.1.2, hc.2⟩
  have hip := index_for_some g p hc
  generalize hipeq : (p.y - g.min_y).natAbs * g.width + (p.x - g.min_x).natAbs = ip at hip
  have hiplt : ip < g.cells.length := by
    have hr : (p.y - g.min_y).natAbs < 1 + (g.max_y - g.min_y).natAbs := by omega
    have hcl : (p.x - g.min_x).natAbs < 1 + (g.max_x - g.min_x).natAbs := by omega
    rw [← hipeq, hlen, hW, hH]
    exact rowcol_lt hr hcl
  have hset : g.set p v = ({ g with cells := g.cells.set ip v }, some ()) := by
    simp only [DenseGrid.set, hip]
  have hip2 : DenseGrid.index_for { g with cells := g.cells.set ip v } p = some ip := hip
  refine ⟨by rw [hset], ?_, ?_, by rw [hset], by rw [hset], by rw [hset],
    by rw [hset], by rw [hset], by rw [hset], by simp [hset, DenseGrid.size]⟩
  · rw [hset]
    simp only [DenseGrid.get, hip2, Option.some_bind]
    exact List.getElem?_set_self hiplt
  · intro q hq
    rw [hset]
    have hifq : DenseGrid.index_for { g with cells := g.cells.set ip v } q =
        g.index_for q := rfl
    simp only [DenseGrid.get, hifq]
    rcases hq2 : g.index_for q with _ | iq
    · rfl
    · simp only [Option.some_bind]
      simp only [DenseGrid.index_for] at hq2
      split at hq2
      · exact Option.noConfusion hq2
      · rename_i hcond
        have hqb : g.min_x ≤ q.x ∧ q.x ≤ g.max_x ∧ g.min_y ≤ q.y ∧ q.y ≤ g.max_y := by
          simp only [Bool.or_eq_true, decide_eq_true_eq] at hcond
          omega
        have hiq : (q.y - g.min_y).natAbs * g.width + (q.x - g.min_x).natAbs = iq :=
          (Option.some.injEq _ _).mp hq2
        apply List.getElem?_set_ne
        intro habs
        rw [habs, ← hiq] at hip
        have hcolp : (p.x - g.min_x).natAbs < g.width := by rw [hW]; omega
        have hcolq : (q.x - g.min_x).natAbs < g.width := by rw [hW]; omega
        have hip3 := index_for_some g p hc
        rw [hip] at hip3
        obtain ⟨hrow, hcol⟩ := rowcol_inj hcolq hcolp ((Option.some.injEq _ _).mp hip3)
        exact hq (by ext <;> omega)

/-- Witness for C8 at a concrete grid and points. -/
theorem set_frame_witness :
    (DenseGrid.new_with ⟨0, 0⟩ ⟨1, 1⟩ (0 : Nat)).WF ∧
    (DenseGrid.new_with ⟨0, 0⟩ ⟨1, 1⟩ (0 : Nat)).contains ⟨1, 0⟩ = true ∧
    ((DenseGrid.new_with ⟨0, 0⟩ ⟨1, 1⟩ (0 : Nat)).set ⟨1, 0⟩ 9).1.get ⟨0, 1⟩ =
      (DenseGrid.new_with ⟨0, 0⟩ ⟨1, 1⟩ (0 : Nat)).get ⟨0, 1⟩ :=
  ⟨by decide, by decide,
    (set_frame (DenseGrid.new_with ⟨0, 0⟩ ⟨1, 1⟩ (0 : Nat)) ⟨1, 0⟩ 9
      (by decide) (by decide)).2.2.1 ⟨0, 1⟩ (by decide)⟩

theorem taken_done (fuel : Nat) (it : LineToIter) (h : it.done = true) :
    LineToIter.taken fuel it = [] := by
  cases fuel <;> simp [LineToIter.taken, LineToIter.next, h]

theorem line_run (d : Point) (hd : d ≠ ⟨0, 0⟩) :
    ∀ (n : Nat) (s : Point) (fuel : Nat), n + 1 ≤ fuel →
      LineToIter.taken fuel ⟨s, ⟨s.x + (n : Int) * d.x, s.y + (n : Int) * d.y⟩, d, false⟩ =
        (List.range (n + 1)).map fun i => ⟨s.x + (i : Int) * d.x, s.y + (i : Int) * d.y⟩ := by
  intro n
  induction n with
  | zero =>
    intro s fuel hf
    obtain ⟨f, rfl⟩ : ∃ f, fuel = f + 1 := ⟨fuel - 1, by omega⟩
    simp only [Nat.cast_zero, zero_mul, add_zero]
    have hit : (⟨s.x, s.y⟩ : Point) = s := rfl
    rw [hit]
    simp only [LineToIter.taken, LineToIter.next, Bool.false_eq_true, if_false,
      decide_eq_true_eq]
    rw [taken_done f _ (by simp)]
    simp [List.range_succ]
  | succ n ih =>
    intro s fuel hf
    obtain ⟨f, rfl⟩ : ∃ f, fuel = f + 1 := ⟨fuel - 1, by omega⟩
    have hne : ¬(s = (⟨s.x + ((n : Int) + 1) * d.x, s.y + ((n : Int) + 1) * d.y⟩ : Point)) := by
      intro habs
      apply hd
      have hx := congrArg Point.x habs
      have hy := congrArg Point.y habs
      simp only at hx hy
      have hx0 : ((n : Int) + 1) * d.x = 0 := by linarith
      have hy0 : ((n : Int) + 1) * d.y = 0 := by linarith
      have hdx : d.x = 0 := by
        rcases mul_eq_zero.mp hx0 with h | h
        · exact absurd h (by positivity)
        · exact h
      have hdy : d.y = 0 := by
        rcases mul_eq_zero.mp hy0 with h | h
        · exact absurd h (by positivity)
        · exact h
      ext
      · exact hdx
      · exact hdy
    have hcast : ((n + 1 : Nat) : Int) = (n : Int) + 1 := by push_cast; ring
    simp only [hcast]
    simp only [LineToIter.taken, LineToIter.next, Bool.false_eq_true, if_false]
    rw [decide_eq_false hne]
    have hstep : (⟨s.x + ((n : Int) + 1) * d.x, s.y + ((n : Int) + 1) * d.y⟩ : Point) =
        ⟨(s + d).x + (n : Int) * d.x, (s + d).y + (n : Int) * d.y⟩ := by
      ext <;> simp [Point.add_def] <;> ring
    rw [hstep]
    have hrec := ih (s + d) f (by omega)
    simp only at hrec
    rw [hrec]
    conv_rhs => rw [List.range_succ_eq_map]
    simp only [List.map_cons, List.map_map, Nat.cast_zero, zero_mul, add_zero]
    congr 1
    apply List.map_congr_left
    intro i _
    simp only [Function.comp_apply]
    ext <;> simp [Point.add_def] <;> ring

theorem line_to_taken (a b d : Point) (n : Nat) (hd : d ≠ ⟨0, 0⟩)
    (hnew : LineToIter.new a b = some ⟨a, b, d, false⟩)
    (hb : b = ⟨a.x + (n : Int) * d.x, a.y + (n : Int) * d.y⟩) (extra : Nat) :
    (Point.line_to a b).map (LineToIter.taken (n + 1 + extra)) =
      some ((List.range (n + 1)).map fun i => ⟨a.x + (i : Int) * d.x, a.y + (i : Int) * d.y⟩) := by
  rw [Point.line_to, hnew, Option.map_some']
  congr 1
  conv_lhs => rw [hb]
  exact line_run d hd n a (n + 1 + extra) (by omega)

theorem taken_length_of_map {o : Option LineToIter} {fuel : Nat} {L : List Point}
    (h : o.map (LineToIter.taken fuel) = some L) :
    o.map (fun it => (LineToIter.taken fuel it).length) = some L.length := by
  cases o with
  | none => exact Option.noConfusion h
  | some it =>
    simp only [Option.map_some'] at h ⊢
    rw [(Option.some.injEq _ _).mp h]

/-- C2: for distinct axis-aligned points, `line_to` yields exactly the
segment from `a` to `b` inclusive, in order, one unit per step (the i-th
point is `a + i * sign(b - a)` coordinatewise), and then terminates: for
every surplus fuel the collected list is the same
`max(|Δx|, |Δy|) + 1`-element segment. -/
theorem line_to_spec (a b : Point) (hax : a.x = b.x ∨ a.y = b.y) (hne : a ≠ b)
    (extra : Nat) :
    (Point.line_to a b).map
        (LineToIter.taken (max (a.x - b.x).natAbs (a.y - b.y).natAbs + 1 + extra)) =
      some ((List.range (max (a.x - b.x).natAbs (a.y - b.y).natAbs + 1)).map
        fun i => ⟨a.x + (i : Int) * (b.x - a.x).sign, a.y + (i : Int) * (b.y - a.y).sign⟩) ∧
    (Point.line_to a b).map
        (fun it => (LineToIter.taken
          (max (a.x - b.x).natAbs (a.y - b.y).natAbs + 1 + extra) it).length) =
      some (max (a.x - b.x).natAbs (a.y - b.y).natAbs + 1) := by
  have hfirst : (Point.line_to a b).map
      (LineToIter.taken (max (a.x - b.x).natAbs (a.y - b.y).natAbs + 1 + extra)) =
    some ((List.range (max (a.x - b.x).natAbs (a.y - b.y).natAbs + 1)).map
      fun i => ⟨a.x + (i : Int) * (b.x - a.x).sign, a.y + (i : Int) * (b.y - a.y).sign⟩) := by
    rcases lt_trichotomy a.x b.x with hx | hx | hx
    · have hy : a.y = b.y := hax.resolve_left (by omega)
      have hcmp : compare a.x b.x = Ordering.lt := compare_lt_iff_lt.mpr hx
      have hnew : LineToIter.new a b = some ⟨a, b, ⟨1, 0⟩, false⟩ := by
        simp [LineToIter.new, hcmp]
      have hmax : max (a.x - b.x).natAbs (a.y - b.y).natAbs = (b.x - a.x).toNat := by
        omega
      have hb : b = ⟨a.x + (((b.x - a.x).toNat : Nat) : Int) * (⟨1, 0⟩ : Point).x,
          a.y + (((b.x - a.x).toNat : Nat) : Int) * (⟨1, 0⟩ : Point).y⟩ := by
        ext <;> simp <;> omega
      have hs1 : (b.x - a.x).sign = 1 := Int.sign_eq_one_of_pos (by omega)
      have hs0 : (b.y - a.y).sign = 0 := by rw [← hy, sub_self, Int.sign_zero]
      rw [hmax]
      simp only [hs1, hs0, mul_one, mul_zero, add_zero]
      have := line_to_taken a b ⟨1, 0⟩ (b.x - a.x).toNat (by decide) hnew hb extra
      simpa using this
    · have hy : a.y ≠ b.y := by
        intro h
        exact hne (by ext <;> omega)
      have hcmpx : compare a.x b.x = Ordering.eq := compare_eq_iff_eq.mpr hx
      have hs0 : (b.x - a.x).sign = 0 := by rw [hx, sub_self, Int.sign_zero]
      rcases lt_trichotomy a.y b.y with hyy | hyy | hyy
      · have hcmpy : compare a.y b.y = Ordering.lt := compare_lt_iff_lt.mpr hyy
        have hnew : LineToIter.new a b = some ⟨a, b, ⟨0, 1⟩, false⟩ := by
          simp [LineToIter.new, hcmpx, hcmpy]
        have hmax : max (a.x - b.x).natAbs (a.y - b.y).natAbs = (b.y - a.y).toNat := by
          omega
        have hb : b = ⟨a.x + (((b.y - a.y).toNat : Nat) : Int) * (⟨0, 1⟩ : Point).x,
            a.y + (((b.y - a.y).toNat : Nat) : Int) * (⟨0, 1⟩ : Point).y⟩ := by
          ext <;> simp <;> omega
        have hs1 : (b.y - a.y).sign = 1 := Int.sign_eq_one_of_pos (by omega)
        rw [hmax]
        simp only [hs1, hs0, mul_one, mul_zero, add_zero]
        have := line_to_taken a b ⟨0, 1⟩ (b.y - a.y).toNat (by decide) hnew hb extra
        simpa using this
      · exact absurd (by ext <;> omega : a = b) hne
      · have hcmpy : compare a.y b.y = Ordering.gt := compare_gt_iff_gt.mpr hyy
        have hnew : LineToIter.new a b = some ⟨a, b, ⟨0, -1⟩, false⟩ := by
          simp [LineToIter.new, hcmpx, hcmpy]
        have hmax : max (a.x - b.x).natAbs (a.y - b.y).natAbs = (a.y - b.y).toNat := by
          omega
        have hb : b = ⟨a.x + (((a.y - b.y).toNat : Nat) : Int) * (⟨0, -1⟩ : Point).x,
            a.y + (((a.y - b.y).toNat : Nat) : Int) * (⟨0, -1⟩ : Point).y⟩ := by
          ext <;> simp <;> omega
        have hs1 : (b.y - a.y).sign = -1 := Int.sign_eq_neg_one_of_neg (by omega)
        rw [hmax]
        simp only [hs1, hs0, mul_zero, add_zero]
        have := line_to_taken a b ⟨0, -1⟩ (a.y - b.y).toNat (by decide) hnew hb extra
        simpa using this
    · have hy : a.y = b.y := hax.resolve_left (by omega)
      have hcmp : compare a.x b.x = Ordering.gt := compare_gt_iff_gt.mpr hx
      have hnew : LineToIter.new a b = some ⟨a, b, ⟨-1, 0⟩, false⟩ := by
        simp [LineToIter.new, hcmp]
      have hmax : max (a.x - b.x).natAbs (a.y - b.y).natAbs = (a.x - b.x).toNat := by
        omega
      have hb : b = ⟨a.x + (((a.x - b.x).toNat : Nat) : Int) * (⟨-1, 0⟩ : Point).x,
          a.y + (((a.x - b.x).toNat : Nat) : Int) * (⟨-1, 0⟩ : Point).y⟩ := by
        ext <;> simp <;> omega
      have hs1 : (b.x - a.x).sign = -1 := Int.sign_eq_neg_one_of_neg (by omega)
      have hs0 : (b.y - a.y).sign = 0 := by rw [← hy, sub_self, Int.sign_zero]
      rw [hmax]
      simp only [hs1, hs0, mul_zero, add_zero]
      have := line_to_taken a b ⟨-1, 0⟩ (a.x - b.x).toNat (by decide) hnew hb extra
      simpa using this
  refine ⟨hfirst, ?_⟩
  have hlen := taken_length_of_map hfirst
  simpa [List.length_map, List.length_range] using hlen

/-- Witness for C2 on the concrete segment from (0, 0) to (0, 2). -/
theorem line_to_spec_witness :
    (((⟨0, 0⟩ : Point).x = (⟨0, 2⟩ : Point).x ∨ (⟨0, 0⟩ : Point).y = (⟨0, 2⟩ : Point).y) ∧
      (⟨0, 0⟩ : Point) ≠ ⟨0, 2⟩) ∧
    (Point.line_to ⟨0, 0⟩ ⟨0, 2⟩).map (LineToIter.taken 4) =
      some [⟨0, 0⟩, ⟨0, 1⟩, ⟨0, 2⟩] :=
  ⟨⟨by decide, by decide⟩, by
    have h := (line_to_spec ⟨0, 0⟩ ⟨0, 2⟩ (by decide) (by decide) 1).1
    simpa [List.range_succ] using h⟩

/-- C10: the two orderings on day 13's `Packet` type do not agree. At the
packets `2` and `[1]` the hand-written `partial_cmp` (used by `lhs <= rhs`
in Part 1) says `Greater` — a number is compared to a list by wrapping it —
while the derived `Ord::cmp` (used by `all_packets.sort()` in Part 2) says
`Less`, because the `Number` variant precedes the `List` variant. So
`partial_cmp(a, b) = Some(cmp(a, b))` fails, Part 1 treats the pair `2`,
`[1]` as out of order while Part 2's sort puts `2` first. -/
theorem packet_orders_disagree :
    pcmp (.number 2) (.list [.number 1]) = some .gt ∧
    cmpD (.number 2) (.list [.number 1]) = .lt ∧
    packetLe (.number 2) (.list [.number 1]) = false ∧
    packetLeD (.number 2) (.list [.number 1]) = true := by
  exact ⟨rfl, rfl, rfl, rfl⟩

theorem trim_isEmpty_iff (l : List Char) :
    (rustTrim l).isEmpty = true ↔ l.all rustIsWhitespace = true := by
  rw [rustTrim, List.isEmpty_iff, List.reverse_eq_nil_iff, List.dropWhile_eq_nil_iff,
    List.all_eq_true]
  constructor
  · intro h x hx
    rw [← List.takeWhile_append_dropWhile rustIsWhitespace l] at hx
    rcases List.mem_append.mp hx with h1 | h2
    · exact List.mem_takeWhile_imp h1
    · exact h x (List.mem_reverse.mpr h2)
  · intro h x hx
    exact h x ((List.dropWhile_sublist rustIsWhitespace).subset (List.mem_reverse.mp hx))

/-- C4: parsing day 13's packet pairs is all-or-nothing. `parse_packet_pairs`
returns `Ok ps` exactly when the whole input matches the packet-pair grammar
(`parse_packets`, the embedded nom grammar) leaving at most whitespace
unconsumed; on every malformed input (parser failure, or a remainder with a
non-whitespace character) it returns `Err` with a non-empty message and no
packet list. -/
theorem parse_packet_pairs_all_or_nothing (cs : List Char) :
    (∀ ps, parse_packet_pairs cs = .ok ps ↔
      ∃ rem, parse_packets cs = some (ps, rem) ∧ rem.all rustIsWhitespace = true) ∧
    ((∀ ps rem, parse_packets cs = some (ps, rem) →
        rem.all rustIsWhitespace = false) →
      ∃ msg, parse_packet_pairs cs = .error msg ∧ msg ≠ "") := by
  constructor
  · intro ps
    unfold parse_packet_pairs
    rcases h : parse_packets cs with _ | ⟨ps', rem'⟩
    · simp
    · simp only []
      by_cases ht : (rustTrim rem').isEmpty = true
      · rw [if_pos ht]
        constructor
        · intro he
          have hps : ps' = ps := (Except.ok.injEq _ _).mp he
          exact ⟨rem', by rw [hps], (trim_isEmpty_iff rem').mp ht⟩
        · rintro ⟨rem, hsome, hall⟩
          obtain ⟨h1, h2⟩ := Prod.mk.injEq _ _ _ _ ▸ (Option.some.injEq _ _).mp hsome
          rw [h1]
      · rw [if_neg ht]
        constructor
        · intro he
          exact Except.noConfusion he
        · rintro ⟨rem, hsome, hall⟩
          obtain ⟨h1, h2⟩ := Prod.mk.injEq _ _ _ _ ▸ (Option.some.injEq _ _).mp hsome
          subst h2
          exact absurd ((trim_isEmpty_iff rem').mpr hall) ht
  · intro hmal
    unfold parse_packet_pairs
    rcases h : parse_packets cs with _ | ⟨ps', rem'⟩
    · exact ⟨"error parsing: Error", rfl, by decide⟩
    · have hfalse := hmal ps' rem' h
      have ht : ¬(rustTrim rem').isEmpty = true := by
        intro habs
        rw [(trim_isEmpty_iff rem').mp habs] at hfalse
        exact Bool.noConfusion hfalse
      simp only []
      rw [if_neg ht]
      refine ⟨_, rfl, ?_⟩
      intro habs
      have hlen := congrArg String.length habs
      rw [String.length_append] at hlen
      have h17 : ("unconsumed input ").length = 17 := rfl
      have h0 : ("" : String).length = 0 := rfl
      omega

/-- Witness for C4: the two-packet input is accepted in full. -/
theorem parse_packet_pairs_witness :
    parse_packet_pairs "[1]\n[2]".data = .ok [(.list [.number 1], .list [.number 2])] :=
  ((parse_packet_pairs_all_or_nothing "[1]\n[2]".data).1 _).mpr ⟨[], rfl, rfl⟩

/-- C6: a program run succeeds (returns `Ok`, exit status zero) exactly when
its input parses, and fails with the parser's diagnostic message whenever
parsing fails: for `aoc13` Part 1 (`parse_packet_pairs`), `aoc13` Part 2
(`parse_all_packets`) and `aoc19` in both modes (`parse_blueprints`). -/
theorem mains_exit_status (cs : List Char) :
    ((main13 .part1 cs).isOk = (parse_packet_pairs cs).isOk ∧
      ∀ e, parse_packet_pairs cs = .error e → main13 .part1 cs = .error e) ∧
    ((main13 .part2 cs).isOk = (parse_all_packets cs).isOk ∧
      ∀ e, parse_all_packets cs = .error e → main13 .part2 cs = .error e) ∧
    (∀ m, (main19 m cs).isOk = (parse_blueprints cs).isOk ∧
      ∀ e, parse_blueprints cs = .error e → main19 m cs = .error e) := by
  refine ⟨⟨?_, ?_⟩, ⟨?_, ?_⟩, fun m => ⟨?_, ?_⟩⟩
  · rcases h : parse_packet_pairs cs with e | ps <;>
      simp [main13, h, Except.map, Except.isOk, Except.toBool]
  · intro e he
    simp [main13, he, Except.map]
  · rcases h : parse_all_packets cs with e | ps <;>
      simp [main13, h, Except.map, Except.isOk, Except.toBool]
  · intro e he
    simp [main13, he, Except.map]
  · rcases h : parse_blueprints cs with e | bps <;> cases m <;>
      simp [main19, h, Except.isOk, Except.toBool]
  · intro e he
    cases m <;> simp [main19, he]

/-- Witness for C6: the malformed input "x" is rejected by all three parsers
and each embedded `main` propagates the error. -/
theorem mains_exit_status_witness :
    parse_packet_pairs "x".data = .error "error parsing: Error" ∧
    main13 .part1 "x".data = .error "error parsing: Error" ∧
    parse_blueprints "x".data = .error "unable to parse input: Error" ∧
    main19 .part1 "x".data = .error "unable to parse input: Error" :=
  ⟨rfl, ((mains_exit_status "x".data).1.2 _ rfl), rfl,
    ((mains_exit_status "x".data).2.2 .part1).2 _ rfl⟩

theorem foldl_wadd16 (l : List Nat) (a : Nat) (h : a < 65536) :
    l.foldl wadd16 a = (a + l.sum) % 65536 := by
  induction l generalizing a with
  | nil => simp [Nat.mod_eq_of_lt h]
  | cons x xs ih =>
    simp only [List.foldl_cons, List.sum_cons]
    rw [ih (wadd16 a x) (by simp [wadd16, w16]; omega)]
    simp only [wadd16, w16]
    omega

theorem foldl_wmul16 (l : List Nat) (a : Nat) (h : a < 65536) :
    l.foldl wmul16 a = (a * l.prod) % 65536 := by
  induction l generalizing a with
  | nil => simp [Nat.mod_eq_of_lt h]
  | cons x xs ih =>
    simp only [List.foldl_cons, List.prod_cons]
    rw [ih (wmul16 a x) (by simp [wmul16, w16]; omega)]
    simp only [wmul16, w16]
    rw [Nat.mod_mul_mod, ← Nat.mul_assoc]

/-- C5: the day-19 reduction is order-independent. `simulate_with` is a pure
function of the blueprint (and the fixed start inventory and tick budget), so
each parallel unit's result is determined by its blueprint alone; and for any
completion order (any permutation of the per-blueprint results), the wrapping
`u16` sum of `id * geodes` (Part 1) and the wrapping `u16` product of the
first three blueprints' results (Part 2) are unchanged. -/
theorem aoc19_reduction_order_independent (bps : List Blueprint)
    (l1 l2 : List Nat)
    (h1 : l1.Perm (bps.map fun bp => wmul16 bp.id (simulate_with bp Inventory.new 24)))
    (h2 : l2.Perm ((bps.map fun bp => simulate_with bp Inventory.new 32).take 3)) :
    l1.foldl wadd16 0 =
      (bps.map fun bp => wmul16 bp.id (simulate_with bp Inventory.new 24)).foldl wadd16 0 ∧
    l2.foldl wmul16 1 =
      ((bps.map fun bp => simulate_with bp Inventory.new 32).take 3).foldl wmul16 1 := by
  constructor
  · rw [foldl_wadd16 _ 0 (by omega), foldl_wadd16 _ 0 (by omega), h1.sum_eq]
  · rw [foldl_wmul16 _ 1 (by omega), foldl_wmul16 _ 1 (by omega), h2.prod_eq]

/-- Witness for C5: two concrete blueprints, with the Part-1 results combined
in the swapped order. -/
theorem aoc19_reduction_order_independent_witness :
    ([wmul16 2 (simulate_with ⟨2, 1, 1, (1, 1), (1, 1)⟩ Inventory.new 24),
      wmul16 1 (simulate_with ⟨1, 1, 1, (1, 1), (1, 1)⟩ Inventory.new 24)].Perm
      (([⟨1, 1, 1, (1, 1), (1, 1)⟩, ⟨2, 1, 1, (1, 1), (1, 1)⟩] : List Blueprint).map
        fun bp => wmul16 bp.id (simulate_with bp Inventory.new 24))) ∧
    ((([⟨1, 1, 1, (1, 1), (1, 1)⟩, ⟨2, 1, 1, (1, 1), (1, 1)⟩] : List Blueprint).map
        fun bp => simulate_with bp Inventory.new 32).take 3).Perm
      ((([⟨1, 1, 1, (1, 1), (1, 1)⟩, ⟨2, 1, 1, (1, 1), (1, 1)⟩] : List Blueprint).map
        fun bp => simulate_with bp Inventory.new 32).take 3) ∧
    [wmul16 2 (simulate_with ⟨2, 1, 1, (1, 1), (1, 1)⟩ Inventory.new 24),
      wmul16 1 (simulate_with ⟨1, 1, 1, (1, 1), (1, 1)⟩ Inventory.new 24)].foldl wadd16 0 =
      (([⟨1, 1, 1, (1, 1), (1, 1)⟩, ⟨2, 1, 1, (1, 1), (1, 1)⟩] : List Blueprint).map
        fun bp => wmul16 bp.id (simulate_with bp Inventory.new 24)).foldl wadd16 0 := by
  have h1 : ([wmul16 2 (simulate_with ⟨2, 1, 1, (1, 1), (1, 1)⟩ Inventory.new 24),
      wmul16 1 (simulate_with ⟨1, 1, 1, (1, 1), (1, 1)⟩ Inventory.new 24)].Perm
      (([⟨1, 1, 1, (1, 1), (1, 1)⟩, ⟨2, 1, 1, (1, 1), (1, 1)⟩] : List Blueprint).map
        fun bp => wmul16 bp.id (simulate_with bp Inventory.new 24))) := by
    simp only [List.map_cons, List.map_nil]
    exact List.Perm.swap _ _ []
  have h2 := List.Perm.refl
    ((([⟨1, 1, 1, (1, 1), (1, 1)⟩, ⟨2, 1, 1, (1, 1), (1, 1)⟩] : List Blueprint).map
      fun bp => simulate_with bp Inventory.new 32).take 3)
  exact ⟨h1, h2, (aoc19_reduction_order_independent _ _ _ h1 h2).1⟩

/-- Witness for C7 at a concrete pair of corners. -/
theorem new_with_spec_witness :
    (DenseGrid.new_with ⟨0, 0⟩ ⟨2, 1⟩ (5 : Nat)).contains ⟨1, 1⟩ = true ∧
    (DenseGrid.new_with ⟨0, 0⟩ ⟨2, 1⟩ (5 : Nat)).get ⟨1, 1⟩ = some 5 :=
  ⟨by decide, (new_with_spec ⟨0, 0⟩ ⟨2, 1⟩ 5).2.2.2.2.2.2.2.2 ⟨1, 1⟩ (by decide)⟩
